import Mathlib

/-!
Shallow embedding of the ranking computation of `webapp/go/stats_handler.go` and of the
tag cache of `webapp/go/top_handler.go`.

Ranking: `LivestreamRankingEntry` (LivestreamID int64, Score int64) and `UserRankingEntry`
(Username string, Score int64) share one shape; the two `Less` methods (stats_handler.go
lines 29-35 and 54-60) are literally the same code up to the identifier type, so the entry
type is parametrised by the identifier type `idt` (Int for livestreams, String for users,
both linear orders; Go compares strings bytewise on UTF-8, which agrees with the
codepoint-lexicographic order of Lean strings).  `sort.Sort` only guarantees a permutation
that is sorted for the comparator; since the comparator here is a strict total order on
the entry values themselves (score, then identifier, and an entry has no other field),
the sorted permutation is unique as a list, so insertion sort is an exact model.
The rank scan (lines 146-153 and 293-300) walks the ascending array from its top end,
starting the counter at 1 and stopping at the first entry whose identifier matches.
-/

namespace Isu

/-- Common shape of `LivestreamRankingEntry` and `UserRankingEntry`:
an identifier together with an int64 score. -/
structure RankingEntry (idt : Type) where
  id : idt
  score : Int
deriving DecidableEq

variable {idt : Type} [LinearOrder idt] [DecidableEq idt]

/-- Translation of `LivestreamRanking.Less` / `UserRanking.Less`:
equal scores are tie-broken by ascending identifier, otherwise ascending score. -/
def rankingLess (a b : RankingEntry idt) : Bool :=
  if a.score == b.score then decide (a.id < b.id) else decide (a.score < b.score)

/-- The ordering actually guaranteed by `sort.Sort` for consecutive elements:
the earlier element is not greater than the later one. -/
def sortRel (a b : RankingEntry idt) : Prop :=
  rankingLess b a = false

instance : DecidableRel (@sortRel idt _) := by
  intro a b
  unfold sortRel
  infer_instance

/-- Model of `sort.Sort(ranking)` with the `Less` comparator. -/
def sortRanking (ranking : List (RankingEntry idt)) : List (RankingEntry idt) :=
  List.insertionSort sortRel ranking

/-- The rank scan loop of the statistics handlers: walk a list, starting the counter at
the given value, stopping at the first entry whose identifier equals the target. -/
def rankScan (target : idt) : Int → List (RankingEntry idt) → Int
  | rank, [] => rank
  | rank, e :: rest => if e.id = target then rank else rankScan target (rank + 1) rest

/-- The whole rank computation of `getUserStatisticsHandler` (lines 144-153) and
`getLivestreamStatisticsHandler` (lines 291-300): sort ascending, then scan from the
highest-scoring end with the counter starting at 1. -/
def computeRank (ranking : List (RankingEntry idt)) (target : idt) : Int :=
  rankScan target 1 (sortRanking ranking).reverse

/-- Translation of the TagModel rows of `top_handler.go` (lines 24-27). -/
structure TagModel where
  ID : Int
  Name : String
deriving DecidableEq

/-- Translation of TagCache (top_handler.go lines 18-22).  The two Go maps are modelled
as functions into Option; the RWMutex has no observable effect on the sequential
semantics and is dropped. -/
structure TagCache where
  tags : Int → Option TagModel
  nameToID : String → Option Int

/-- Translation of NewTagCache (lines 35-40): both indexes start empty. -/
def NewTagCache : TagCache :=
  { tags := fun _ => none, nameToID := fun _ => none }

/-- Translation of GetTagByID (lines 43-49).  The Go (tag, found) pair is the Option:
found = false corresponds to none. -/
def TagCache.GetTagByID (c : TagCache) (id : Int) : Option TagModel :=
  c.tags id

/-- Translation of GetTagIDByName (lines 52-58). -/
def TagCache.GetTagIDByName (c : TagCache) (name : String) : Option Int :=
  c.nameToID name

/-- The write loop of initTagCache (lines 81-84): each fetched row is written into both
existing maps, in slice order; nothing is ever removed. -/
def TagCache.applyRows (c : TagCache) : List TagModel → TagCache
  | [] => c
  | m :: rest =>
      TagCache.applyRows
        { tags := Function.update c.tags m.ID (some m),
          nameToID := Function.update c.nameToID m.Name (some m.ID) } rest

/-- Translation of initTagCache (lines 60-87).  The bulk read (transaction begin, SELECT,
commit) is modelled as an Except argument; on any failure the function returns the error
before touching the cache, on success it writes all rows into the existing maps. -/
def initTagCache (c : TagCache) (read : Except String (List TagModel)) :
    Except String Unit × TagCache :=
  match read with
  | Except.error e => (Except.error ("failed to get tags: " ++ e), c)
  | Except.ok rows => (Except.ok (), c.applyRows rows)

/-- Modelled from the spec for claim C7: the id index "holding exactly the entries
derived from" the row set R, and nothing else.  A later row overwrites an earlier one
with the same id, matching the order of map assignments in the source loop. -/
def specTagsOfRows : List TagModel → Int → Option TagModel
  | [], _ => none
  | m :: rest, i =>
      match specTagsOfRows rest i with
      | some t => some t
      | none => if m.ID = i then some m else none

/-- Modelled from the spec for claim C7: the name index derived from the row set R alone. -/
def specNameIndexOfRows : List TagModel → String → Option Int
  | [], _ => none
  | m :: rest, n =>
      match specNameIndexOfRows rest n with
      | some j => some j
      | none => if m.Name = n then some m.ID else none

/-- The cross-index consistency invariant of the tag cache (claim C10): every id stored
in the name index is a key of the id index, and the stored tag carries that id. -/
def TagCacheConsistent (c : TagCache) : Prop :=
  ∀ n i, c.GetTagIDByName n = some i → ∃ t, c.GetTagByID i = some t ∧ t.ID = i

/-- Field ID of LivestreamModel, the only one the viewer-count loop reads. -/
structure LivestreamModel where
  ID : Int

/-- Row of the per-livestream statistics query of getUserStatisticsHandler
(stats_handler.go lines 167-171). -/
structure LivestreamStats where
  LivestreamID : Int
  LivecommentsCount : Int
  TotalTip : Int

/-- Translation of the UserStatistics response record (stats_handler.go lines 37-44). -/
structure UserStatistics where
  Rank : Int
  ViewersCount : Int
  TotalReactions : Int
  TotalLivecomments : Int
  TotalTip : Int
  FavoriteEmoji : String

/-- Rows of UserModel as read by getUserStatisticsHandler. -/
structure UserModel where
  ID : Int
  Name : String

/-- The results of the database reads issued by getUserStatisticsHandler, modelled as an
oracle: users is the full users table, reactionsOf and tipsOf are the contents of the
two grouped aggregate queries keyed by user id (absent group rows contribute 0, matching
the zero-initialised userScoresMap), and the remaining fields are the scalar reads. -/
structure UserStatsDB where
  users : List UserModel
  reactionsOf : Int → Int
  tipsOf : Int → Int
  totalReactions : Int
  livestreamStatsList : List LivestreamStats
  viewerHistoryCount : Int → Int
  favoriteEmoji : String

/-- Translation of the computation of getUserStatisticsHandler (stats_handler.go lines
62-237): build the ranking in users order with score = reactions + tips, sort and scan
for the rank, total the per-livestream stats, and sum viewer counts over the local
variable livestreams, which the source declares at line 196 and never populates. -/
def getUserStatistics (db : UserStatsDB) (username : String) : UserStatistics :=
  let ranking : List (RankingEntry String) :=
    db.users.map (fun u => { id := u.Name, score := db.reactionsOf u.ID + db.tipsOf u.ID })
  let rank := computeRank ranking username
  let totalLivecomments :=
    db.livestreamStatsList.foldl (fun acc s => acc + s.LivecommentsCount) 0
  let totalTip := db.livestreamStatsList.foldl (fun acc s => acc + s.TotalTip) 0
  let livestreams : List LivestreamModel := []
  let viewersCount := livestreams.foldl (fun acc ls => acc + db.viewerHistoryCount ls.ID) 0
  { Rank := rank
    ViewersCount := viewersCount
    TotalReactions := db.totalReactions
    TotalLivecomments := totalLivecomments
    TotalTip := totalTip
    FavoriteEmoji := db.favoriteEmoji }

theorem rankingLess_eq_true_iff (a b : RankingEntry idt) :
    rankingLess a b = true ↔ ((a.score = b.score ∧ a.id < b.id) ∨ a.score < b.score) := by
  unfold rankingLess
  by_cases h : a.score = b.score
  · simp [h, lt_irrefl]
  · simp [h, beq_iff_eq]

theorem sortRel_iff (a b : RankingEntry idt) :
    sortRel a b ↔ (a.score < b.score ∨ (a.score = b.score ∧ a.id ≤ b.id)) := by
  unfold sortRel
  rw [Bool.eq_false_iff, ne_eq, rankingLess_eq_true_iff, not_or, not_and]
  constructor
  · rintro ⟨h1, h2⟩
    rcases eq_or_lt_of_le (not_lt.mp h2) with heq | hlt
    · exact Or.inr ⟨heq, not_lt.mp (h1 heq.symm)⟩
    · exact Or.inl hlt
  · rintro (hlt | ⟨heq, hle⟩)
    · exact ⟨fun h => absurd hlt (h ▸ lt_irrefl _), not_lt.mpr hlt.le⟩
    · exact ⟨fun _ => not_lt.mpr hle, not_lt.mpr heq.le⟩

instance : IsTotal (RankingEntry idt) sortRel := by
  constructor
  intro a b
  rw [sortRel_iff, sortRel_iff]
  rcases lt_trichotomy a.score b.score with h | h | h
  · exact Or.inl (Or.inl h)
  · rcases le_total a.id b.id with h2 | h2
    · exact Or.inl (Or.inr ⟨h, h2⟩)
    · exact Or.inr (Or.inr ⟨h.symm, h2⟩)
  · exact Or.inr (Or.inl h)

instance : IsTrans (RankingEntry idt) sortRel := by
  constructor
  intro a b c hab hbc
  rw [sortRel_iff] at hab hbc ⊢
  rcases hab with h1 | ⟨h1, h1id⟩
  · rcases hbc with h2 | ⟨h2, _⟩
    · exact Or.inl (h1.trans h2)
    · exact Or.inl (h2 ▸ h1)
  · rcases hbc with h2 | ⟨h2, h2id⟩
    · exact Or.inl (h1 ▸ h2)
    · exact Or.inr ⟨h1.trans h2, h1id.trans h2id⟩

theorem sortRanking_perm (ranking : List (RankingEntry idt)) :
    List.Perm (sortRanking ranking) ranking :=
  List.perm_insertionSort sortRel ranking

theorem sortRanking_length (ranking : List (RankingEntry idt)) :
    (sortRanking ranking).length = ranking.length :=
  (sortRanking_perm ranking).length_eq

theorem sortRanking_sorted (ranking : List (RankingEntry idt)) :
    List.Sorted sortRel (sortRanking ranking) :=
  List.sorted_insertionSort sortRel ranking

theorem rankScan_eq (t : idt) (r : Int) (l : List (RankingEntry idt)) :
    rankScan t r l = r + (l.findIdx (fun e => decide (e.id = t)) : Int) := by
  induction l generalizing r with
  | nil => simp [rankScan]
  | cons e rest ih =>
    by_cases h : e.id = t
    · simp [rankScan, h, List.findIdx_cons]
    · simp only [rankScan, if_neg h, ih, List.findIdx_cons, decide_eq_false h, cond_false]
      push_cast
      ring

theorem computeRank_eq (ranking : List (RankingEntry idt)) (t : idt) :
    computeRank ranking t =
      1 + ((sortRanking ranking).reverse.findIdx (fun e => decide (e.id = t)) : Int) := by
  unfold computeRank
  exact rankScan_eq t 1 _

theorem sortRanking_pairwise_ne (l : List (RankingEntry idt))
    (hd : l.Pairwise fun a b => a.id ≠ b.id) :
    (sortRanking l).Pairwise fun a b => a.id ≠ b.id := by
  have hsym : ∀ {x y : RankingEntry idt}, x.id ≠ y.id → y.id ≠ x.id := fun h => h.symm
  exact ((sortRanking_perm l).pairwise_iff hsym).mpr hd

/-- Master characterisation: on a score set with pairwise distinct identifiers, the rank
computed for the entry sitting at position `i` of the ascending sorted order is
`length - i`: the scan starts at the top of the ascending array. -/
theorem computeRank_eq_of_getElem (l : List (RankingEntry idt)) (t : idt)
    (hd : l.Pairwise fun a b => a.id ≠ b.id) (i : Nat) (hi : i < (sortRanking l).length)
    (ht : ((sortRanking l)[i]).id = t) :
    computeRank l t = ((sortRanking l).length : Int) - i := by
  have hsd := sortRanking_pairwise_ne l hd
  rw [computeRank_eq]
  have hn : (sortRanking l).reverse.length = (sortRanking l).length :=
    List.length_reverse _
  have hidx : (sortRanking l).reverse.findIdx (fun e => decide (e.id = t)) =
      (sortRanking l).length - 1 - i := by
    rw [List.findIdx_eq (by rw [hn]; omega)]
    constructor
    · rw [List.getElem_reverse]
      have harith : (sortRanking l).length - 1 - ((sortRanking l).length - 1 - i) = i := by
        omega
      simp only [harith]
      simp [ht]
    · intro j hj
      rw [List.getElem_reverse]
      have hj2 : i < (sortRanking l).length - 1 - j := by omega
      have hne := (List.pairwise_iff_getElem.mp hsd) i ((sortRanking l).length - 1 - j)
        hi (by omega) hj2
      rw [ht] at hne
      simpa using fun hcontra => hne (by rw [hcontra])
  rw [hidx]
  omega

theorem sortRanking_top (l : List (RankingEntry idt)) (e : RankingEntry idt) (he : e ∈ l)
    (hmax : ∀ f ∈ l, f = e ∨ f.score < e.score)
    (h : (sortRanking l).length - 1 < (sortRanking l).length) :
    (sortRanking l)[(sortRanking l).length - 1] = e := by
  by_contra hxe
  have hmem : (sortRanking l)[(sortRanking l).length - 1] ∈ l :=
    (sortRanking_perm l).mem_iff.mp (List.getElem_mem h)
  rcases hmax _ hmem with hx | hx
  · exact hxe hx
  · have hes : e ∈ sortRanking l := (sortRanking_perm l).mem_iff.mpr he
    obtain ⟨j, hj, hje⟩ := List.getElem_of_mem hes
    have hjne : j ≠ (sortRanking l).length - 1 := by
      intro hcontra
      subst hcontra
      exact hxe hje
    have hjlt : j < (sortRanking l).length - 1 := by omega
    have hrel := (List.pairwise_iff_getElem.mp (sortRanking_sorted l)) j
      ((sortRanking l).length - 1) hj h hjlt
    rw [hje, sortRel_iff] at hrel
    rcases hrel with h2 | ⟨h2, _⟩ <;> omega

theorem sortRanking_bottom (l : List (RankingEntry idt)) (e : RankingEntry idt) (he : e ∈ l)
    (hmin : ∀ f ∈ l, f = e ∨ e.score < f.score) (h : 0 < (sortRanking l).length) :
    (sortRanking l)[0] = e := by
  by_contra hxe
  have hmem : (sortRanking l)[0] ∈ l :=
    (sortRanking_perm l).mem_iff.mp (List.getElem_mem h)
  rcases hmin _ hmem with hx | hx
  · exact hxe hx
  · have hes : e ∈ sortRanking l := (sortRanking_perm l).mem_iff.mpr he
    obtain ⟨j, hj, hje⟩ := List.getElem_of_mem hes
    have hjne : j ≠ 0 := by
      intro hcontra
      subst hcontra
      exact hxe hje
    have hrel := (List.pairwise_iff_getElem.mp (sortRanking_sorted l)) 0 j h hj
      (by omega)
    rw [hje, sortRel_iff] at hrel
    rcases hrel with h2 | ⟨h2, _⟩ <;> omega

/-- C5: for every non-empty score set S and every target that occurs in S, the computed
rank lies between 1 and the number of records. -/
theorem claimC5_theorem (S : List (RankingEntry idt)) (e : RankingEntry idt) (he : e ∈ S) :
    1 ≤ computeRank S e.id ∧ computeRank S e.id ≤ (S.length : Int) := by
  rw [computeRank_eq]
  have hes : e ∈ (sortRanking S).reverse := by
    rw [List.mem_reverse]
    exact (sortRanking_perm S).mem_iff.mpr he
  have hfi : (sortRanking S).reverse.findIdx (fun f => decide (f.id = e.id)) <
      (sortRanking S).reverse.length :=
    List.findIdx_lt_length_of_exists ⟨e, hes, by simp⟩
  have hlen : (sortRanking S).reverse.length = S.length := by
    rw [List.length_reverse, sortRanking_length]
  omega

/-- C5 witness: the bounds hold on a concrete two-record set. -/
theorem claimC5_witness :
    1 ≤ computeRank ([⟨1, 10⟩, ⟨2, 30⟩] : List (RankingEntry Int)) 2 ∧
    computeRank ([⟨1, 10⟩, ⟨2, 30⟩] : List (RankingEntry Int)) 2 ≤ 2 :=
  claimC5_theorem [⟨1, 10⟩, ⟨2, 30⟩] ⟨2, 30⟩ (by decide)

/-- C3: if the target occurs nowhere in the score set, the scan falls through having
incremented once per record and the computation returns length + 1, an ordinary value,
not an error (the function is total). -/
theorem claimC3_theorem (S : List (RankingEntry idt)) (t : idt)
    (habsent : ∀ e ∈ S, e.id ≠ t) :
    computeRank S t = (S.length : Int) + 1 := by
  rw [computeRank_eq]
  have hall : (sortRanking S).reverse.findIdx (fun e => decide (e.id = t)) =
      (sortRanking S).reverse.length := by
    apply List.findIdx_eq_length_of_false
    intro x hx
    exact decide_eq_false
      (habsent x ((sortRanking_perm S).mem_iff.mp (List.mem_reverse.mp hx)))
  rw [hall, List.length_reverse, sortRanking_length]
  omega

/-- C3 witness: a one-record set with an absent target yields rank 2 = length + 1. -/
theorem claimC3_witness :
    computeRank ([⟨1, 10⟩] : List (RankingEntry Int)) 2 = 2 :=
  claimC3_theorem [⟨1, 10⟩] 2 (by decide)

/-- C2 (amended): the rank is the 1-based position counted from the highest score
downward, not from the lowest upward: the entry at position i of the ascending sorted
order receives rank length - i, so rank 1 belongs to the top of the ascending order. -/
theorem claimC2_theorem (S : List (RankingEntry idt))
    (hd : S.Pairwise fun a b => a.id ≠ b.id) (i : Nat) (hi : i < (sortRanking S).length) :
    computeRank S ((sortRanking S)[i]).id = (S.length : Int) - i := by
  rw [computeRank_eq_of_getElem S _ hd i hi rfl, sortRanking_length]

/-- C2 counterexample: on the set {(1,10),(2,30)} the lowest-scored entity id 1 does not
get rank 1; rank 1 goes to the highest-scored entity id 2. -/
theorem claimC2_counterexample :
    computeRank ([⟨1, 10⟩, ⟨2, 30⟩] : List (RankingEntry Int)) 1 ≠ 1 ∧
    computeRank ([⟨1, 10⟩, ⟨2, 30⟩] : List (RankingEntry Int)) 2 = 1 := by
  decide

/-- C2 witness: position 1 of the ascending order of a three-record set gets rank 2. -/
theorem claimC2_witness :
    computeRank ([⟨1, 10⟩, ⟨2, 30⟩, ⟨3, 20⟩] : List (RankingEntry Int)) 3 = 2 :=
  claimC2_theorem [⟨1, 10⟩, ⟨2, 30⟩, ⟨3, 20⟩] (by decide) 1 (by decide)

/-- C1 counterexample: on scores {(1,10),(2,30),(3,10)} with target id 3 the computation
does not return 3. -/
theorem claimC1_counterexample :
    computeRank ([⟨1, 10⟩, ⟨2, 30⟩, ⟨3, 10⟩] : List (RankingEntry Int)) 3 ≠ 3 := by
  decide

/-- C1 (amended): on scores {(1,10),(2,30),(3,10)} with target id 3 the computation
returns rank 2: the ascending order is (1,10),(3,10),(2,30) and the scan from the
highest-scoring end meets id 2 first and finds id 3 second. -/
theorem claimC1_theorem :
    computeRank ([⟨1, 10⟩, ⟨2, 30⟩, ⟨3, 10⟩] : List (RankingEntry Int)) 3 = 2 := by
  decide

/-- C4: among two records with equal score, the one with the smaller identifier ends up
lower in the ascending order and therefore receives the larger rank number. -/
theorem claimC4_theorem (S : List (RankingEntry idt))
    (hd : S.Pairwise fun a b => a.id ≠ b.id) (a b : RankingEntry idt)
    (ha : a ∈ S) (hb : b ∈ S) (hscore : a.score = b.score) (hid : a.id < b.id) :
    computeRank S b.id < computeRank S a.id := by
  obtain ⟨i, hi, hia⟩ := List.getElem_of_mem ((sortRanking_perm S).mem_iff.mpr ha)
  obtain ⟨j, hj, hjb⟩ := List.getElem_of_mem ((sortRanking_perm S).mem_iff.mpr hb)
  have hij : i < j := by
    rcases lt_trichotomy i j with h | h | h
    · exact h
    · exfalso
      subst h
      rw [hia] at hjb
      rw [hjb] at hid
      exact lt_irrefl _ hid
    · exfalso
      have hrel := (List.pairwise_iff_getElem.mp (sortRanking_sorted S)) j i hj hi h
      rw [hia, hjb, sortRel_iff] at hrel
      rcases hrel with h2 | ⟨h2, h2id⟩
      · omega
      · exact absurd hid (not_lt.mpr h2id)
  have hra := computeRank_eq_of_getElem S a.id hd i hi (by rw [hia])
  have hrb := computeRank_eq_of_getElem S b.id hd j hj (by rw [hjb])
  rw [hra, hrb]
  omega

/-- C4 witness: in {(1,10),(2,30),(3,10)} ids 1 and 3 tie on score and id 3 receives the
smaller rank number. -/
theorem claimC4_witness :
    computeRank ([⟨1, 10⟩, ⟨2, 30⟩, ⟨3, 10⟩] : List (RankingEntry Int)) 3 <
    computeRank ([⟨1, 10⟩, ⟨2, 30⟩, ⟨3, 10⟩] : List (RankingEntry Int)) 1 :=
  claimC4_theorem [⟨1, 10⟩, ⟨2, 30⟩, ⟨3, 10⟩] (by decide) ⟨1, 10⟩ ⟨3, 10⟩
    (by decide) (by decide) (by decide) (by decide)

/-- C6: with pairwise distinct identifiers, the strictly highest-scored record gets
rank 1 and the strictly lowest-scored record gets rank length. -/
theorem claimC6_theorem (S : List (RankingEntry idt))
    (hd : S.Pairwise fun a b => a.id ≠ b.id) (e : RankingEntry idt) (he : e ∈ S) :
    ((∀ f ∈ S, f = e ∨ f.score < e.score) → computeRank S e.id = 1) ∧
    ((∀ f ∈ S, f = e ∨ e.score < f.score) → computeRank S e.id = (S.length : Int)) := by
  have hlen0 : 0 < (sortRanking S).length := by
    rw [sortRanking_length]
    exact List.length_pos.mpr (List.ne_nil_of_mem he)
  constructor
  · intro hmax
    have htop := sortRanking_top S e he hmax (by omega)
    have hrk := computeRank_eq_of_getElem S e.id hd ((sortRanking S).length - 1)
      (by omega) (by rw [htop])
    rw [hrk]
    omega
  · intro hmin
    have hbot := sortRanking_bottom S e he hmin hlen0
    have hrk := computeRank_eq_of_getElem S e.id hd 0 hlen0 (by rw [hbot])
    rw [hrk, sortRanking_length]
    omega

/-- C6 witness: in {(1,10),(2,30),(3,20)} the unique maximum id 2 gets rank 1 and the
unique minimum id 1 gets rank 3. -/
theorem claimC6_witness :
    computeRank ([⟨1, 10⟩, ⟨2, 30⟩, ⟨3, 20⟩] : List (RankingEntry Int)) 2 = 1 ∧
    computeRank ([⟨1, 10⟩, ⟨2, 30⟩, ⟨3, 20⟩] : List (RankingEntry Int)) 1 = 3 :=
  ⟨(claimC6_theorem [⟨1, 10⟩, ⟨2, 30⟩, ⟨3, 20⟩] (by decide) ⟨2, 30⟩ (by decide)).1
      (by decide),
   (claimC6_theorem [⟨1, 10⟩, ⟨2, 30⟩, ⟨3, 20⟩] (by decide) ⟨1, 10⟩ (by decide)).2
      (by decide)⟩

theorem applyRows_tags (rows : List TagModel) (c : TagCache) (i : Int) :
    (c.applyRows rows).tags i =
      match specTagsOfRows rows i with
      | some t => some t
      | none => c.tags i := by
  induction rows generalizing c with
  | nil => rfl
  | cons m rest ih =>
    rw [TagCache.applyRows, ih]
    cases h : specTagsOfRows rest i with
    | some t => simp [specTagsOfRows, h]
    | none =>
      simp only [specTagsOfRows, h, Function.update_apply]
      by_cases hmi : m.ID = i
      · subst hmi
        simp
      · have hmi2 : ¬i = m.ID := fun hcontra => hmi hcontra.symm
        simp [hmi, hmi2]

theorem applyRows_nameToID (rows : List TagModel) (c : TagCache) (n : String) :
    (c.applyRows rows).nameToID n =
      match specNameIndexOfRows rows n with
      | some j => some j
      | none => c.nameToID n := by
  induction rows generalizing c with
  | nil => rfl
  | cons m rest ih =>
    rw [TagCache.applyRows, ih]
    cases h : specNameIndexOfRows rest n with
    | some j => simp [specNameIndexOfRows, h]
    | none =>
      simp only [specNameIndexOfRows, h, Function.update_apply]
      by_cases hmn : m.Name = n
      · subst hmn
        simp
      · have hmn2 : ¬n = m.Name := fun hcontra => hmn hcontra.symm
        simp [hmn, hmn2]

theorem specTagsOfRows_eq_none (rows : List TagModel) (i : Int)
    (h : ∀ m ∈ rows, m.ID ≠ i) : specTagsOfRows rows i = none := by
  induction rows with
  | nil => rfl
  | cons m rest ih =>
    simp only [specTagsOfRows, ih fun x hx => h x (List.mem_cons_of_mem m hx),
      if_neg (h m (List.mem_cons_self m rest))]

theorem specNameIndexOfRows_eq_none (rows : List TagModel) (n : String)
    (h : ∀ m ∈ rows, m.Name ≠ n) : specNameIndexOfRows rows n = none := by
  induction rows with
  | nil => rfl
  | cons m rest ih =>
    simp only [specNameIndexOfRows, ih fun x hx => h x (List.mem_cons_of_mem m hx),
      if_neg (h m (List.mem_cons_self m rest))]

/-- C7 (amended): a successful initialization merges the fetched rows into the existing
indexes rather than replacing them; starting from the freshly constructed empty cache the
indexes hold exactly the entries derived from the rows R, and lookups of an id or name
absent from R return found = false. -/
theorem claimC7_theorem (R : List TagModel) (i : Int) (n : String) :
    ((initTagCache NewTagCache (Except.ok R)).2.GetTagByID i = specTagsOfRows R i) ∧
    ((initTagCache NewTagCache (Except.ok R)).2.GetTagIDByName n =
      specNameIndexOfRows R n) ∧
    ((∀ m ∈ R, m.ID ≠ i) → (initTagCache NewTagCache (Except.ok R)).2.GetTagByID i = none) ∧
    ((∀ m ∈ R, m.Name ≠ n) →
      (initTagCache NewTagCache (Except.ok R)).2.GetTagIDByName n = none) := by
  have htags : (initTagCache NewTagCache (Except.ok R)).2.GetTagByID i =
      specTagsOfRows R i := by
    show (TagCache.applyRows NewTagCache R).tags i = _
    rw [applyRows_tags]
    cases specTagsOfRows R i <;> rfl
  have hnames : (initTagCache NewTagCache (Except.ok R)).2.GetTagIDByName n =
      specNameIndexOfRows R n := by
    show (TagCache.applyRows NewTagCache R).nameToID n = _
    rw [applyRows_nameToID]
    cases specNameIndexOfRows R n <;> rfl
  refine ⟨htags, hnames, fun h => ?_, fun h => ?_⟩
  · rw [htags]
    exact specTagsOfRows_eq_none R i h
  · rw [hnames]
    exact specNameIndexOfRows_eq_none R n h

/-- C7 counterexample: initialization does not replace previous contents.  Starting from
a cache already holding tag id 5, a successful initialization with the single row (1,"a")
leaves id 5 present, although 5 is not among the fetched rows, so a lookup of 5 does not
return found = false. -/
theorem claimC7_counterexample :
    (initTagCache (TagCache.applyRows NewTagCache [⟨5, "e"⟩]) (Except.ok [⟨1, "a"⟩])).1 =
      Except.ok () ∧
    (initTagCache (TagCache.applyRows NewTagCache [⟨5, "e"⟩])
        (Except.ok [⟨1, "a"⟩])).2.GetTagByID 5 = some ⟨5, "e"⟩ := by
  constructor <;> rfl

/-- C7 witness: after initializing the empty cache with the single row (1,"a"), the
lookup of the absent id 7 returns found = false. -/
theorem claimC7_witness :
    (initTagCache NewTagCache (Except.ok [⟨1, "a"⟩])).2.GetTagByID 7 = none :=
  (claimC7_theorem [⟨1, "a"⟩] 7 "z").2.2.1 (by decide)

/-- C8: if the bulk read fails, initialization returns the error and the cache value is
exactly the one passed in; no partial update is visible on the failure path. -/
theorem claimC8_theorem (c : TagCache) (e : String) :
    initTagCache c (Except.error e) = (Except.error ("failed to get tags: " ++ e), c) :=
  rfl

/-- C9: the user statistics computation returns ViewersCount = 0 for every database
state, because the livestreams list the summation ranges over is declared at
stats_handler.go line 196 and never populated. -/
theorem claimC9_theorem (db : UserStatsDB) (username : String) :
    (getUserStatistics db username).ViewersCount = 0 :=
  rfl

theorem applyRows_consistent (rows : List TagModel) :
    ∀ c : TagCache, TagCacheConsistent c → TagCacheConsistent (c.applyRows rows) := by
  induction rows with
  | nil => exact fun c hc => hc
  | cons m rest ih =>
    intro c hc
    apply ih
    intro n i h
    rw [show (TagCache.GetTagIDByName
        { tags := Function.update c.tags m.ID (some m),
          nameToID := Function.update c.nameToID m.Name (some m.ID) } n) =
        Function.update c.nameToID m.Name (some m.ID) n from rfl,
      Function.update_apply] at h
    by_cases hn : n = m.Name
    · rw [if_pos hn] at h
      have hi : i = m.ID := by
        injection h with h2
        exact h2.symm
      subst hi
      refine ⟨m, ?_, rfl⟩
      show Function.update c.tags m.ID (some m) m.ID = some m
      rw [Function.update_apply, if_pos rfl]
    · rw [if_neg hn] at h
      obtain ⟨t, ht, hti⟩ := hc n i h
      by_cases hi : i = m.ID
      · subst hi
        refine ⟨m, ?_, rfl⟩
        show Function.update c.tags m.ID (some m) m.ID = some m
        rw [Function.update_apply, if_pos rfl]
      · refine ⟨t, ?_, hti⟩
        show Function.update c.tags m.ID (some m) i = some t
        rw [Function.update_apply, if_neg hi]
        exact ht

/-- C10: the cross-index consistency invariant holds for the freshly constructed cache
and is preserved by every run of the initialization, successful or failed: whenever
GetTagIDByName finds an id, GetTagByID finds a tag carrying exactly that id. -/
theorem claimC10_theorem :
    TagCacheConsistent NewTagCache ∧
    ∀ (c : TagCache) (read : Except String (List TagModel)),
      TagCacheConsistent c → TagCacheConsistent (initTagCache c read).2 := by
  constructor
  · intro n i h
    exact absurd h (by simp [TagCache.GetTagIDByName, NewTagCache])
  · intro c read hc
    cases read with
    | error e => exact hc
    | ok rows => exact applyRows_consistent rows c hc

/-- C10 witness: the invariant holds concretely for the cache obtained by initializing
the empty cache with the single row (1,"a"). -/
theorem claimC10_witness :
    TagCacheConsistent (initTagCache NewTagCache (Except.ok [⟨1, "a"⟩])).2 :=
  claimC10_theorem.2 NewTagCache (Except.ok [⟨1, "a"⟩])
    (by intro n i h; exact absurd h (by simp [TagCache.GetTagIDByName, NewTagCache]))

end Isu
